import Mathlib

/-!
Verification of the kz80_calc spreadsheet engine (src/codegen.rs).

The repository is a build-time generator emitting Z80 machine code for a
16x64-cell spreadsheet with 8-digit packed-BCD fixed-point arithmetic
(2 implied decimal places).  This file shallowly embeds the semantics of
the emitted routines, translated from the assembly the Rust generator
emits (each definition cites the label of the routine it embeds).

Representation conventions:
* A 4-byte packed-BCD magnitude (big-endian digits d7..d0, two digits per
  byte) is modelled as the natural number `d7*10^7 + ... + d0` it denotes;
  all routines under verification only produce valid digits (< 10), for
  which byte-wise lexicographic comparison coincides with numeric order,
  byte-wise `ADC/DAA` addition with carry-out dropped coincides with
  addition modulo `10^8`, and a 4-bit shift of the packed bytes coincides
  with multiplication by 10 modulo `10^8`.
* ASCII text is modelled as `List Nat` of byte values; the target's
  NUL-terminated buffers end at the end of the list (reading past the
  terminator yields byte 0, modelled by `headD 0`).
* 8-bit and 16-bit register arithmetic wraps, modelled with `% 256` /
  `% 65536` exactly where the assembly uses 8/16-bit operations.
-/

namespace KzCalc

/-- Modulus of the 8-digit BCD magnitude representation. -/
def bcdMod : Nat := 100000000

/-- Embeds `get_cell_addr`: address of cell (col,row) computed as
`CELL_DATA + (row*16 + col) * 6` in 16-bit arithmetic (`CELL_DATA = 0x2000`,
`HL` additions wrap modulo 2^16). -/
def get_cell_addr (col row : Nat) : Nat :=
  ((row * 16 + col) * 6 + 0x2000) % 65536

/-- Embeds `bcd_add`: 4-byte BCD addition (byte-wise `ADC`/`DAA` from LSB,
final carry dropped), i.e. addition of the denoted values modulo 10^8. -/
def bcd_add (a b : Nat) : Nat := (a + b) % bcdMod

/-- Embeds `bcd_sub`: 4-byte BCD subtraction (byte-wise `SBC`/`DAA`, final
borrow dropped), i.e. subtraction of the denoted values modulo 10^8. -/
def bcd_sub (a b : Nat) : Nat := (bcdMod + a - b) % bcdMod

/-- Embeds `signed_add` (also the textually identical inline `eval_add`
sequence of `eval_expr`): the accumulator is (`SIGN_ACCUM`, `BCD_TEMP2`),
the operand is (`SIGN_OP`, `BCD_TEMP1`).  Equal sign bytes: magnitudes
added, accumulator sign kept.  Different signs: `bcd_cmp` orders the
magnitudes, the smaller is subtracted from the larger, and the sign is the
larger operand's sign; when the magnitudes are equal the comparison is
"accumulator not smaller", so the accumulator branch runs and the result
is (`SIGN_ACCUM`, 0). -/
def signed_add (sAcc mAcc sOp mOp : Nat) : Nat × Nat :=
  if sOp = sAcc then (sAcc, bcd_add mOp mAcc)
  else if mAcc < mOp then (sOp, bcd_sub mOp mAcc)
  else (sAcc, bcd_sub mAcc mOp)

/-- Embeds the repeated-`bcd_add` loop of `bcd_mul_by_digit`: adds the
multiplicand `m` to the low accumulator half `lo` a digit-count number of
times; each addition is 4-byte with carry into the high half dropped. -/
def addN : Nat → Nat → Nat → Nat
  | 0, lo, _ => lo
  | d + 1, lo, m => addN d ((lo + m) % bcdMod) m

/-- Embeds `bcd_shift_left` on the 8-byte accumulator, split into high and
low 4-byte halves: the 16-digit value is multiplied by 10 modulo 10^16. -/
def mulShift (hi lo : Nat) : Nat × Nat :=
  ((hi * 10 + lo * 10 / bcdMod) % bcdMod, lo * 10 % bcdMod)

/-- Digits of a magnitude most-significant first, as `bcd_mul` scans the
multiplier's 8 digits (high nibble then low nibble of each byte). -/
def bcdDigits (t : Nat) : List Nat :=
  [t / 10000000 % 10, t / 1000000 % 10, t / 100000 % 10, t / 10000 % 10,
   t / 1000 % 10, t / 100 % 10, t / 10 % 10, t % 10]

/-- One digit step of `bcd_mul`: shift the 8-byte accumulator left one
digit, then add the multiplicand `digit` times into the low half. -/
def mulStep (m : Nat) (acc : Nat × Nat) (d : Nat) : Nat × Nat :=
  let s := mulShift acc.1 acc.2
  (s.1, addN d s.2 m)

/-- Embeds `bcd_mul`: multiplier (`BCD_TEMP2`) processed digit-by-digit
from the most significant; afterwards the 8-byte accumulator is shifted
right one byte (divide by 100, for the 2 implied decimals) and its low
4 bytes are the result. -/
def bcd_mul (mcand mplier : Nat) : Nat :=
  let acc := (bcdDigits mplier).foldl (mulStep mcand) (0, 0)
  (acc.1 * bcdMod + acc.2) / 100 % bcdMod

/-- Embeds the repeated-subtraction loop `bcd_div_loop`: while the working
dividend is at least the divisor, subtract and increment the 4-byte BCD
quotient (carry past 8 digits dropped).  The source loop has no fuel; it
is called with fuel exceeding the iteration count, which the surrounding
definitions always supply. -/
def divLoop : Nat → Nat → Nat → Nat → Nat
  | 0, _, _, q => q
  | fuel + 1, b, t, q => if t < b then q else divLoop fuel b (t - b) ((q + 1) % bcdMod)

/-- Embeds `bcd_div`: if the 4 divisor bytes OR to zero, return with carry
set (modelled as `Except.error ()`) without touching the quotient;
otherwise shift the dividend left one byte (x100, top byte dropped) and
divide by repeated subtraction. -/
def bcd_div (a b : Nat) : Except Unit Nat :=
  if b = 0 then Except.error ()
  else Except.ok (divLoop (a % 1000000 * 100 + 1) b (a % 1000000 * 100) 0)

/-- Embeds the `bcd_div_noscale` entry point (used by AVG): repeated
subtraction without the x100 pre-scaling and without the zero check. -/
def bcd_div_noscale (a b : Nat) : Nat := divLoop (a + 1) b a 0

/-- Embeds the character loop `atob_loop` of `ascii_to_bcd`.  State:
accumulated magnitude, decimal-point-seen flag (`ATOB_FLAGS`), fractional
digit count (`ATOB_FLAGS+1`).  A NUL, a non-digit other than a dot, or a
digit arriving when 2 fractional digits are already held, ends the loop;
a dot sets the flag; a digit shifts the magnitude one digit left (top
digit dropped) and is ORed into the low nibble. -/
def atobLoop : List Nat → Nat → Bool → Nat → Nat × Bool × Nat
  | [], acc, dec, fc => (acc, dec, fc)
  | c :: rest, acc, dec, fc =>
    if c = 0 then (acc, dec, fc)
    else if c = 46 then atobLoop rest acc true fc
    else if c < 48 ∨ 57 < c then (acc, dec, fc)
    else if 2 ≤ fc then (acc, dec, fc)
    else atobLoop rest ((acc * 10 + (c - 48)) % bcdMod) dec (if dec then fc + 1 else fc)

/-- Embeds `ascii_to_bcd`: skip one leading minus, run `atob_loop`, then
scale so the result carries exactly 2 implied decimal digits: x100 when no
dot was seen or no digit followed the dot, x10 after one fractional digit,
x1 after two (each scale is a 4-bit-per-digit left shift, dropping
overflowing top digits). -/
def ascii_to_bcd (s : List Nat) : Nat :=
  let s1 := if s.headD 0 = 45 then s.tail else s
  let r := atobLoop s1 0 false 0
  let shift : Nat :=
    if r.2.1 = false then 2
    else if 2 ≤ r.2.2 then 0
    else if r.2.2 = 1 then 1
    else 2
  r.1 * 10 ^ shift % bcdMod

/-- Embeds `bcd_to_ascii`: unconditionally renders the 8 digits of the
magnitude as 6 whole digits, a dot, and 2 fractional digits (9 ASCII
characters, most significant first). -/
def bcd_to_ascii (m : Nat) : List Nat :=
  [48 + m / 10000000 % 10, 48 + m / 1000000 % 10, 48 + m / 100000 % 10,
   48 + m / 10000 % 10, 48 + m / 1000 % 10, 48 + m / 100 % 10,
   46, 48 + m / 10 % 10, 48 + m % 10]

/-- Interpretation of a rendered fixed-point string: the integer value of
its digits with the dot ignored, i.e. 100 times the denoted number.  Used
to state that an output string denotes a given magnitude. -/
def str2val (s : List Nat) : Nat :=
  s.foldl (fun a c => if c = 46 then a else a * 10 + (c - 48)) 0

/-- Value of a digit list read most-significant first. -/
def digitsVal (ds : List Nat) : Nat := ds.foldl (fun a d => a * 10 + d) 0

/-- Rendering of an ASCII numeral: optional minus, whole digits, optional
dot, fractional digits. -/
def renderNum (neg : Bool) (ws : List Nat) (dot : Bool) (fs : List Nat) : List Nat :=
  (if neg then [45] else []) ++ ws.map (fun d => 48 + d) ++
    (if dot then [46] else []) ++ fs.map (fun d => 48 + d)

/-- Embeds the label-table lookup `get_label` of the generator: first
binding of the name, `none` when the name is not defined. -/
def get_label (table : List (String × Nat)) (name : String) : Option Nat :=
  match table with
  | [] => none
  | (k, v) :: rest => if k = name then some v else get_label rest name

/-- Embeds the displacement computation of the generator's immediate
relative-branch patch sites: `get_label(name).unwrap_or(0)
.wrapping_sub(pos) as u8` — 16-bit wrapping subtraction of the current
position from the label address (0 when undefined), truncated to a byte. -/
def relative_patch_byte (target : Option Nat) (pos : Nat) : Nat :=
  (target.getD 0 + (65536 - pos % 65536)) % 65536 % 256

/-- One of the generator's patch sites (`cmd_replicate`'s
`repl_copy_loop`, `parse_formula`'s `copy_formula_loop`,
`parse_label`'s `copy_label_loop`): look the label up and write the
displacement byte. -/
def patch_site (table : List (String × Nat)) (name : String) (pos : Nat) : Nat :=
  relative_patch_byte (get_label table name) pos

/-- Content of one 6-byte cell record, keyed by its type byte.
`typed t sign mag` covers every type whose payload bytes 1..5 are read as
sign + 4-byte BCD when dereferenced (Number = 1, and also Error = 3,
RepeatFill = 4, Label = 5, whose payloads `parse_operand` reads the same
way); Empty (0) and Formula (2) have their own constructors, the Formula
one carrying the cached sign and magnitude stored after the source text
on the heap. -/
inductive Cell
  | empty
  | typed (t sign mag : Nat)
  | formula (cachedSign cachedMag : Nat)
deriving DecidableEq

/-- The cell store, keyed by (column, row); `get_cell_addr` is injective
on the grid, so this is faithful to the flat 6-byte-record array. -/
def Store := Nat → Nat → Cell

/-- Embeds the lowercase-to-uppercase conversion of `parse_operand`
(`SUB 0x20` on bytes in 97..122). -/
def toUpper (c : Nat) : Nat := if 97 ≤ c ∧ c ≤ 122 then c - 32 else c

/-- Embeds the row-number digit loops (`parse_row_loop`, `pf_row1_loop`,
`pf_row2_loop`): accumulate `C := C*10 + digit` in 8-bit arithmetic until
a non-digit byte; returns the accumulator and the remaining input. -/
def parseRowDigits : List Nat → Nat → Nat × List Nat
  | [], acc => (acc, [])
  | c :: rest, acc =>
    if 48 ≤ c ∧ c ≤ 57 then parseRowDigits rest ((acc * 10 + (c - 48)) % 256)
    else (acc, c :: rest)

/-- Embeds the `parse_opn_scan` loop: after a number operand, the input
pointer is advanced past every dot or digit byte. -/
def scanNum : List Nat → List Nat
  | [] => []
  | c :: rest =>
    if c = 46 ∨ (48 ≤ c ∧ c ≤ 57) then scanNum rest else c :: rest

/-- Per-cell state of the range-function loop: sign and magnitude of the
running accumulator (`FUNC_SIGN`, `FUNC_BCD`) and the 16-bit cell count
(`FUNC_COUNT`). -/
structure FuncSt where
  fsign : Nat
  facc : Nat
  count : Nat
deriving DecidableEq

/-- Accumulator initialisation of `parse_func`: count and sign cleared;
the running extreme is seeded at the maximal magnitude 99999999 for MIN
(type 2) and at zero otherwise. -/
def initFuncSt (ftype : Nat) : FuncSt :=
  { fsign := 0, facc := if ftype = 2 then 99999999 else 0, count := 0 }

/-- Embeds `pf_read_bcd` and the per-type accumulation: the 16-bit count
is incremented; MIN (2) keeps the smaller magnitude (`bcd_cmp`), MAX (3)
the larger, every other type adds the cell value into the running sum via
`signed_add`. -/
def foundCell (ftype : Nat) (st : FuncSt) (s m : Nat) : FuncSt :=
  let cnt := (st.count + 1) % 65536
  if ftype = 2 then
    if m < st.facc then { fsign := s, facc := m, count := cnt }
    else { st with count := cnt }
  else if ftype = 3 then
    if st.facc < m then { fsign := s, facc := m, count := cnt }
    else { st with count := cnt }
  else
    let r := signed_add st.fsign st.facc s m
    { fsign := r.1, facc := r.2, count := cnt }

/-- Cell dispatch of the range loop (`pf_is_number` / `pf_is_formula` /
`pf_skip`): a Number cell contributes its stored sign and magnitude, a
Formula cell its cached sign and magnitude, every other cell is skipped. -/
def visitCell (ftype : Nat) (st : FuncSt) : Cell → FuncSt
  | Cell.empty => st
  | Cell.typed t s m => if t = 1 then foundCell ftype st s m else st
  | Cell.formula cs cm => foundCell ftype st cs cm

/-- Embeds the inner row loop `pf_row_loop`: do-while over rows with
8-bit increment, leaving when `RANGE_ROW2` is below the incremented row.
The fuel only bounds the 8-bit counter's cycle (the callers pass 256). -/
def rowIter (store : Store) (ftype col row2 : Nat) : Nat → Nat → FuncSt → FuncSt
  | 0, _, st => st
  | fuel + 1, row, st =>
    let st1 := visitCell ftype st (store col row)
    let row1 := (row + 1) % 256
    if row2 < row1 then st1 else rowIter store ftype col row2 fuel row1 st1

/-- Embeds the outer column loop `pf_col_loop`: do-while over columns with
8-bit increment, rows reset to `row1` for each column. -/
def colIter (store : Store) (ftype row1 row2 col2 : Nat) : Nat → Nat → FuncSt → FuncSt
  | 0, _, st => st
  | fuel + 1, col, st =>
    let st1 := rowIter store ftype col row2 256 row1 st
    let col1 := (col + 1) % 256
    if col2 < col1 then st1 else colIter store ftype row1 row2 col2 fuel col1 st1

/-- Range iteration of `parse_func` over the rectangle, column-major. -/
def func_eval (store : Store) (ftype col1 row1 col2 row2 : Nat) : FuncSt :=
  colIter store ftype row1 row2 col2 256 col1 (initFuncSt ftype)

/-- Embeds the `RLCA` x4 rotation of a byte (high and low nibbles
swapped). -/
def rotl4 (x : Nat) : Nat := x % 16 * 16 + x / 16

/-- Embeds `pf_cvt_tens` / `pf_cnt_cvt`: the low count byte is split by
repeated subtraction of 10 into tens and ones and packed as a BCD byte. -/
def cvt2bcd (l : Nat) : Nat := Nat.lor (rotl4 (l / 10)) (l % 10)

/-- Denoted value of a packed BCD byte sitting in the two lowest digit
positions of a magnitude. -/
def bcdByteVal (p : Nat) : Nat := p / 16 * 10 + p % 16

/-- Embeds `pf_done`: SUM returns the running sum; AVG divides it by the
count (zero, positive, when the count is zero — this internal
divide-by-zero is defined), the count converted from its low byte to a
one-byte BCD divisor and divided without x100 scaling; MIN/MAX return the
running extreme; COUNT returns the count as a magnitude with `.00`
fraction (packed byte placed at digit positions d3 d2). -/
def func_result (store : Store) (ftype col1 row1 col2 row2 : Nat) : Nat × Nat :=
  let st := func_eval store ftype col1 row1 col2 row2
  if ftype = 0 then (st.fsign, st.facc)
  else if ftype = 1 then
    if st.count = 0 then (0, 0)
    else (st.fsign, bcd_div_noscale st.facc (bcdByteVal (cvt2bcd (st.count % 256))))
  else if ftype = 2 ∨ ftype = 3 then (st.fsign, st.facc)
  else (0, bcdByteVal (cvt2bcd (st.count % 256)) * 100)

/-- Embeds `parse_func` (input positioned after the `@`): the function
name (`AND 0xDF` case folding) selects the type, then
`(` col1 row1 `:` col2 row2 `)` is parsed (first column must be in A..P,
the second is only checked to be at least A; rows are 1-based and
decremented), and the range iteration result is returned with the rest of
the input.  Any mismatch reaches `pf_error` (carry set), modelled as
`none`. -/
def parse_func (store : Store) (s : List Nat) : Option (Nat × Nat × List Nat) :=
  let nameRes : Option (Nat × List Nat) :=
    let c1 := Nat.land (s.headD 0) 223
    if c1 = 83 then
      if Nat.land ((s.drop 1).headD 0) 223 = 85 ∧ Nat.land ((s.drop 2).headD 0) 223 = 77
      then some (0, s.drop 3) else none
    else if c1 = 65 then
      if Nat.land ((s.drop 1).headD 0) 223 = 86 ∧ Nat.land ((s.drop 2).headD 0) 223 = 71
      then some (1, s.drop 3) else none
    else if c1 = 77 then
      let c2 := Nat.land ((s.drop 1).headD 0) 223
      if c2 = 73 then
        if Nat.land ((s.drop 2).headD 0) 223 = 78 then some (2, s.drop 3) else none
      else if c2 = 65 then
        if Nat.land ((s.drop 2).headD 0) 223 = 88 then some (3, s.drop 3) else none
      else none
    else if c1 = 67 then
      if Nat.land ((s.drop 1).headD 0) 223 = 79 ∧ Nat.land ((s.drop 2).headD 0) 223 = 85 ∧
         Nat.land ((s.drop 3).headD 0) 223 = 78 ∧ Nat.land ((s.drop 4).headD 0) 223 = 84
      then some (4, s.drop 5) else none
    else none
  match nameRes with
  | none => none
  | some (ftype, s2) =>
    if s2.headD 0 = 40 then
      let s3 := s2.tail
      let cA := Nat.land (s3.headD 0) 223
      if 65 ≤ cA ∧ cA < 81 then
        let col1 := cA - 65
        let p1 := parseRowDigits s3.tail 0
        let row1 := (p1.1 + 255) % 256
        if p1.2.headD 0 = 58 then
          let s5 := p1.2.tail
          let cB := Nat.land (s5.headD 0) 223
          if 65 ≤ cB then
            let col2 := cB - 65
            let p2 := parseRowDigits s5.tail 0
            let row2 := (p2.1 + 255) % 256
            if p2.2.headD 0 = 41 then
              let res := func_result store ftype col1 row1 col2 row2
              some (res.1, res.2, p2.2.tail)
            else none
          else none
        else none
      else none
    else none

/-- Embeds `parse_operand`: a `@` dispatches to `parse_func`; otherwise a
leading `$` is skipped and the (case-folded) byte tested for a column
letter A..P.  A cell reference parses the 1-based row, decrements it, and
dereferences the store: Empty gives zero/positive, Formula gives the
cached sign and magnitude, every other type byte falls through to the
Number code and gives the record's stored sign and magnitude (there is no
rejection of Error, RepeatFill or Label cells).  A non-letter rereads the
saved pointer as a number: optional minus, `ascii_to_bcd`, and the input
is advanced past dots and digits.  Returns sign, magnitude and the
remaining input, `none` when the carry flag would be set. -/
def parse_operand (store : Store) (s : List Nat) : Option (Nat × Nat × List Nat) :=
  let c0 := s.headD 0
  if c0 = 64 then parse_func store s.tail
  else
    let s1 := if c0 = 36 then s.tail else s
    let c1 := toUpper (s1.headD 0)
    if 65 ≤ c1 ∧ c1 ≤ 80 then
      let col := c1 - 65
      let s2 := s1.tail
      let s3 := if s2.headD 0 = 36 then s2.tail else s2
      let p := parseRowDigits s3 0
      let row := (p.1 + 255) % 256
      match store col row with
      | Cell.empty => some (0, 0, p.2)
      | Cell.formula cs cm => some (cs, cm, p.2)
      | Cell.typed _ sg m => some (sg, m, p.2)
    else
      let neg := s.headD 0 = 45
      let sN := if neg then s.tail else s
      some (if neg then 128 else 0, ascii_to_bcd sN, scanNum sN)

/-- Embeds the `eval_loop` of `eval_expr`: while a byte follows, it is the
operator; the next operand is parsed and dispatched.  `+` is the inline
signed addition (identical to `signed_add`), `-` flips the operand's sign
byte and adds, `*` XORs the signs and multiplies (multiplier = old
accumulator), `/` XORs the signs, swaps so the old accumulator is the
dividend, and calls `bcd_div` — whose carry (divide by zero) is not
checked: the accumulator is then left holding the dividend and evaluation
continues.  Any other operator byte sets carry (`none`).  The fuel is the
remaining input length plus one; every iteration consumes at least the
operator byte, so it never runs out. -/
def evalLoop (store : Store) : Nat → Nat → Nat → List Nat → Option (Nat × Nat)
  | _, sAcc, mAcc, [] => some (sAcc, mAcc)
  | 0, _, _, _ => none
  | fuel + 1, sAcc, mAcc, op :: rest =>
    match parse_operand store rest with
    | none => none
    | some (sOp, mOp, rest1) =>
      if op = 43 then
        let r := signed_add sAcc mAcc sOp mOp
        evalLoop store fuel r.1 r.2 rest1
      else if op = 45 then
        let r := signed_add sAcc mAcc (sOp ^^^ 128) mOp
        evalLoop store fuel r.1 r.2 rest1
      else if op = 42 then
        evalLoop store fuel (sAcc ^^^ sOp) (bcd_mul mOp mAcc) rest1
      else if op = 47 then
        let q := match bcd_div mAcc mOp with
          | Except.ok v => v
          | Except.error _ => mAcc
        evalLoop store fuel (sAcc ^^^ sOp) q rest1
      else none

/-- Embeds `eval_expr`: parse the first operand, take its sign as the
accumulator sign, then run the evaluation loop strictly left-to-right
(no operator precedence). -/
def eval_expr (store : Store) (s : List Nat) : Option (Nat × Nat) :=
  match parse_operand store s with
  | none => none
  | some (s0, m0, rest) => evalLoop store (rest.length + 1) s0 m0 rest

/-- State affected by `parse_formula` that the claims observe: the heap
free pointer `FORMULA_PTR` and the type byte written to the current
cell. -/
structure EditSt where
  formulaPtr : Nat
  cellType : Nat
deriving DecidableEq

/-- Embeds `parse_formula`'s control flow and state effects: an input
shorter than 2 bytes jumps to `store_error` (type byte 3, `FORMULA_PTR`
untouched); an evaluation error (carry from `eval_expr`) pops the saved
pointers and jumps to `store_error` likewise; on success the source text
(`INPUT_LEN` bytes), a NUL and the 5 cached bytes are placed at
`FORMULA_PTR`, which is advanced past them, and the cell is written with
type byte 2 (Formula). -/
def parse_formula (store : Store) (input : List Nat) (fp : Nat) : EditSt :=
  if input.length < 2 then { formulaPtr := fp, cellType := 3 }
  else
    match eval_expr store input.tail with
    | none => { formulaPtr := fp, cellType := 3 }
    | some _ => { formulaPtr := fp + input.length + 1 + 5, cellType := 2 }

/-- Writes a list of bytes over the head of a byte region, leaving the
remainder; writing past the end of the modelled region is ignored. -/
def storeBytesAt : List Nat → List Nat → List Nat
  | heap, [] => heap
  | [], _ => []
  | _ :: hs, b :: bs => b :: storeBytesAt hs bs

/-- Embeds the store step of `do_recalc` for one formula heap entry:
`recalc_find_end` scans past the first NUL of the entry, then the loop at
`recalc_store_loop` writes the 4 freshly evaluated BCD bytes at the very
next positions — i.e. starting at the byte that `parse_formula` used for
the cached sign. -/
def recalc_store (heap : List Nat) (bs : List Nat) : List Nat :=
  match heap with
  | [] => []
  | 0 :: rest => 0 :: storeBytesAt rest bs
  | c :: rest => c :: recalc_store rest bs

/-- Cached bytes of a formula heap entry as `parse_op_formula` reads them:
the 5 bytes (sign, then 4 magnitude bytes) following the first NUL. -/
def read_cached : List Nat → List Nat
  | [] => []
  | 0 :: rest => rest.take 5
  | _ :: rest => read_cached rest

/-- Packs a two-digit number into one BCD byte (tens in the high nibble). -/
def packByte (x : Nat) : Nat := x / 10 * 16 + x % 10

/-- The 4 packed-BCD bytes (big-endian) denoting a magnitude, as stored in
`BCD_TEMP1` and copied to the heap by `parse_formula` and `do_recalc`. -/
def magBytes (m : Nat) : List Nat :=
  [packByte (m / 1000000 % 100), packByte (m / 10000 % 100),
   packByte (m / 100 % 100), packByte (m % 100)]

/-- Signed value denoted by a (sign byte, magnitude) pair: the sign byte
0x80 negates the magnitude, 0x00 leaves it non-negative. -/
def toZ (s : Nat) (m : Nat) : Int := if s = 128 then -(m : Int) else (m : Int)

/-- Whether a cell contributes to a range function (type byte Number = 1
or Formula = 2); every other cell is skipped by the range loop. -/
def isNumericCell : Cell → Bool
  | Cell.empty => false
  | Cell.typed t _ _ => t == 1
  | Cell.formula _ _ => true

/-- ASCII digits (1 or 2 characters) of a row number up to 99, as typed in
a formula. -/
def rowDigits (n : Nat) : List Nat :=
  if n < 10 then [48 + n] else [48 + n / 10, 48 + n % 10]

/-- ASCII rendering of a plain cell reference: column letter then the
1-based row number. -/
def refChars (col row : Nat) : List Nat := (65 + col) :: rowDigits (row + 1)

/-- Store for the worked left-to-right example: `A1 = 3.00` (magnitude
300) and `A2 = 4.00` (magnitude 400), all other cells empty. -/
def storeA : Store := fun c r =>
  if c = 0 ∧ r = 0 then Cell.typed 1 0 300
  else if c = 0 ∧ r = 1 then Cell.typed 1 0 400
  else Cell.empty

/-- Store whose cell A1 has the Error type byte (3) with payload bytes
sign 0x80 and magnitude 777. -/
def storeErrCell : Store := fun c r =>
  if c = 0 ∧ r = 0 then Cell.typed 3 128 777 else Cell.empty

/-- Store whose cell B3 is the number +42.00 (sign byte 7 is deliberate
garbage to show it is passed through verbatim). -/
def storeB3 : Store := fun c r =>
  if c = 1 ∧ r = 2 then Cell.typed 1 7 4200 else Cell.empty

/-- Closed form of the repeated-subtraction loop: with a nonzero divisor
and enough fuel it computes flooring division, the quotient counter
wrapping at 8 digits. -/
theorem divLoop_eq (fuel b t q : Nat) (hb : 0 < b) (ht : t < fuel) (hq : q < bcdMod) :
    divLoop fuel b t q = (q + t / b) % bcdMod := by
  induction fuel generalizing t q with
  | zero => omega
  | succ n ih =>
    simp only [divLoop]
    by_cases h : t < b
    · rw [if_pos h, Nat.div_eq_of_lt h, Nat.add_zero, Nat.mod_eq_of_lt hq]
    · have hbt : b ≤ t := Nat.le_of_not_lt h
      have h1 : t - b < n := by omega
      have h2 : (q + 1) % bcdMod < bcdMod := Nat.mod_lt _ (by simp [bcdMod])
      rw [if_neg h, ih (t - b) ((q + 1) % bcdMod) h1 h2, Nat.mod_add_mod,
        Nat.div_eq_sub_div hb hbt]
      congr 1
      omega

/-- C1: the evaluator `eval_expr` applies the operators strictly
left-to-right with no precedence: with A1 = 3.00 and A2 = 4.00 the
formula body `A1+A2*2` evaluates to (3+4)*2 = 14.00 (sign byte 0,
magnitude 1400), not 3+8 = 11.00; likewise `2+3*4` evaluates to
(2+3)*4 = 20.00. -/
theorem claim_C1_left_to_right :
    eval_expr storeA [65, 49, 43, 65, 50, 42, 50] = some (0, 1400) ∧
    eval_expr storeA [65, 49, 43, 65, 50, 42, 50] ≠ some (0, 1100) ∧
    eval_expr (fun _ _ => Cell.empty) [50, 43, 51, 42, 52] = some (0, 2000) := by
  refine ⟨by decide, by decide, by decide⟩

/-- C2: `do_recalc` writes the 4 freshly evaluated magnitude bytes
starting at the heap byte that holds the cached sign, one byte early: for
the heap entry of formula `=1` (source bytes, NUL, sign 0, magnitude
bytes 00 00 01 00) a recalculation whose evaluation returns the very same
value 1.00 still changes the cached bytes — the sign slot receives the
most significant magnitude byte and the least significant magnitude byte
is never written, so the cached value becomes 100.00. -/
theorem claim_C2_recalc_misalign :
    eval_expr (fun _ _ => Cell.empty) [49] = some (0, 100) ∧
    magBytes 100 = [0, 0, 1, 0] ∧
    read_cached [61, 49, 0, 0, 0, 0, 1, 0] = [0, 0, 0, 1, 0] ∧
    recalc_store [61, 49, 0, 0, 0, 0, 1, 0] (magBytes 100) = [61, 49, 0, 0, 0, 1, 0, 0] ∧
    read_cached (recalc_store [61, 49, 0, 0, 0, 0, 1, 0] (magBytes 100)) = [0, 0, 1, 0, 0] ∧
    read_cached (recalc_store [61, 49, 0, 0, 0, 0, 1, 0] (magBytes 100)) ≠
      read_cached [61, 49, 0, 0, 0, 0, 1, 0] := by
  refine ⟨by decide, by decide, by decide, by decide, by decide, by decide⟩

/-- C3: `get_cell_addr` computes `CELL_DATA + (row*16 + col)*6` for every
grid cell (the 16-bit wrap never fires), is injective over the 16x64 grid,
is strictly increasing in row-major order, and maps (0,0) to the base
address 0x2000. -/
theorem claim_C3_cell_addr :
    ∀ col row col2 row2 : Nat, col < 16 → row < 64 → col2 < 16 → row2 < 64 →
      get_cell_addr col row = 0x2000 + (row * 16 + col) * 6
      ∧ (get_cell_addr col row = get_cell_addr col2 row2 → col = col2 ∧ row = row2)
      ∧ (row * 16 + col < row2 * 16 + col2 → get_cell_addr col row < get_cell_addr col2 row2)
      ∧ get_cell_addr 0 0 = 0x2000 := by
  intro col row col2 row2 h1 h2 h3 h4
  have e1 : get_cell_addr col row = (row * 16 + col) * 6 + 8192 := by
    unfold get_cell_addr; exact Nat.mod_eq_of_lt (by omega)
  have e2 : get_cell_addr col2 row2 = (row2 * 16 + col2) * 6 + 8192 := by
    unfold get_cell_addr; exact Nat.mod_eq_of_lt (by omega)
  refine ⟨by omega, fun h => by rw [e1, e2] at h; omega,
    fun h => by rw [e1, e2]; omega, by decide⟩

/-- Witness for C3 at the concrete cells (1,2) and (3,4). -/
theorem claim_C3_witness :
    get_cell_addr 1 2 = 0x2000 + (2 * 16 + 1) * 6
    ∧ (get_cell_addr 1 2 = get_cell_addr 3 4 → (1 : Nat) = 3 ∧ (2 : Nat) = 4)
    ∧ (2 * 16 + 1 < 4 * 16 + 3 → get_cell_addr 1 2 < get_cell_addr 3 4)
    ∧ get_cell_addr 0 0 = 0x2000 :=
  claim_C3_cell_addr 1 2 3 4 (by decide) (by decide) (by decide) (by decide)

/-- C5 counterexample: `signed_add` is not commutative on ties of
opposite-signed equal magnitudes and does not normalize the zero result
to the non-negative sign: a negative accumulator 1.00 plus a positive
operand 1.00 yields sign byte 0x80 with magnitude 0, while the swapped
order yields sign byte 0x00. -/
theorem claim_C5_counterexample :
    signed_add 128 100 0 100 = (128, 0) ∧
    signed_add 0 100 128 100 = (0, 0) ∧
    signed_add 128 100 0 100 ≠ signed_add 0 100 128 100 ∧
    (signed_add 128 100 0 100).1 ≠ 0 := by
  refine ⟨by decide, by decide, by decide, by decide⟩

/-- C5 amended: on sign bytes 0x00/0x80 and magnitudes whose true signed
sum fits in 8 digits, `signed_add` computes ordinary signed decimal
addition (equal signs add magnitudes under that sign, different signs
subtract the smaller magnitude from the larger under the larger operand's
sign), hence its denoted value is commutative; a tie of opposite signs
yields magnitude zero carrying the accumulator operand's sign — it is not
normalized to non-negative, so the sign byte itself is not commutative. -/
theorem toZ_pos (m : Nat) : toZ 0 m = (m : Int) := by simp [toZ]

theorem toZ_neg (m : Nat) : toZ 128 m = -(m : Int) := by simp [toZ]

/-- Same sign bytes: `signed_add` adds the magnitudes (no wrap when the
sum fits) and keeps the sign. -/
theorem signed_add_same (s ma mb : Nat) (h : mb + ma < bcdMod) :
    signed_add s ma s mb = (s, mb + ma) := by
  unfold signed_add bcd_add
  rw [if_pos (rfl : s = s), Nat.mod_eq_of_lt h]

/-- Different sign bytes: `signed_add` subtracts the smaller magnitude
from the larger and takes the larger operand's sign (ties fall into the
accumulator branch). -/
theorem signed_add_mixed (sa sb ma mb : Nat) (hne : sb ≠ sa)
    (hma : ma < bcdMod) (hmb : mb < bcdMod) :
    signed_add sa ma sb mb = if ma < mb then (sb, mb - ma) else (sa, ma - mb) := by
  simp only [signed_add, if_neg hne, bcd_sub, bcdMod] at hma hmb ⊢
  split_ifs with h <;>
    simp only [Prod.mk.injEq, eq_self_iff_true, true_and] <;>
    omega

theorem claim_C5_signed_add :
    ∀ sa ma sb mb : Nat,
      (sa = 0 ∨ sa = 128) → (sb = 0 ∨ sb = 128) → ma < bcdMod → mb < bcdMod →
      (toZ sa ma + toZ sb mb).natAbs < bcdMod →
      toZ (signed_add sa ma sb mb).1 (signed_add sa ma sb mb).2 = toZ sa ma + toZ sb mb
      ∧ toZ (signed_add sb mb sa ma).1 (signed_add sb mb sa ma).2
          = toZ (signed_add sa ma sb mb).1 (signed_add sa ma sb mb).2
      ∧ (sa ≠ sb → ma = mb → signed_add sa ma sb mb = (sa, 0)) := by
  intro sa ma sb mb hsa hsb hma hmb hfit
  rcases hsa with rfl | rfl <;> rcases hsb with rfl | rfl
  · -- both non-negative
    rw [toZ_pos, toZ_pos] at hfit
    have hsum : mb + ma < bcdMod := by
      simp only [bcdMod] at hfit ⊢; omega
    rw [signed_add_same 0 ma mb hsum, signed_add_same 0 mb ma (by omega)]
    refine ⟨?_, ?_, fun h1 _ => absurd rfl h1⟩
    · rw [toZ_pos, toZ_pos, toZ_pos]; push_cast; ring
    · simp only [toZ_pos]; push_cast; ring
  · -- accumulator non-negative, operand negative
    rw [toZ_pos, toZ_neg] at hfit
    simp only [bcdMod] at hma hmb hfit
    rw [signed_add_mixed 0 128 ma mb (by decide) (by simp [bcdMod]; omega)
        (by simp [bcdMod]; omega),
      signed_add_mixed 128 0 mb ma (by decide) (by simp [bcdMod]; omega)
        (by simp [bcdMod]; omega)]
    refine ⟨?_, ?_, ?_⟩
    · rw [toZ_pos, toZ_neg]
      split_ifs with h <;> dsimp only <;> simp only [toZ_pos, toZ_neg] <;> omega
    · split_ifs with h h2 h2 <;> dsimp only <;> simp only [toZ_pos, toZ_neg] <;> omega
    · intro _ h2
      subst h2
      rw [if_neg (lt_irrefl ma), Nat.sub_self]
  · -- accumulator negative, operand non-negative
    rw [toZ_neg, toZ_pos] at hfit
    simp only [bcdMod] at hma hmb hfit
    rw [signed_add_mixed 128 0 ma mb (by decide) (by simp [bcdMod]; omega)
        (by simp [bcdMod]; omega),
      signed_add_mixed 0 128 mb ma (by decide) (by simp [bcdMod]; omega)
        (by simp [bcdMod]; omega)]
    refine ⟨?_, ?_, ?_⟩
    · rw [toZ_neg, toZ_pos]
      split_ifs with h <;> dsimp only <;> simp only [toZ_pos, toZ_neg] <;> omega
    · split_ifs with h h2 h2 <;> dsimp only <;> simp only [toZ_pos, toZ_neg] <;> omega
    · intro _ h2
      subst h2
      rw [if_neg (lt_irrefl ma), Nat.sub_self]
  · -- both negative
    rw [toZ_neg, toZ_neg] at hfit
    have hsum : mb + ma < bcdMod := by
      simp only [bcdMod] at hfit ⊢; omega
    rw [signed_add_same 128 ma mb hsum, signed_add_same 128 mb ma (by omega)]
    refine ⟨?_, ?_, fun h1 _ => absurd rfl h1⟩
    · rw [toZ_neg, toZ_neg, toZ_neg]; push_cast; ring
    · simp only [toZ_neg]; push_cast; ring

/-- Witness for C5 at the spec's example +100.00 plus -30.00 = +70.00. -/
theorem claim_C5_witness :
    toZ (signed_add 0 10000 128 3000).1 (signed_add 0 10000 128 3000).2
      = toZ 0 10000 + toZ 128 3000 :=
  (claim_C5_signed_add 0 10000 128 3000 (Or.inl rfl) (Or.inr rfl)
    (by decide) (by decide) (by decide)).1

/-- C6: `bcd_div` fails (carry set, no quotient produced) exactly when the
divisor magnitude is zero; for a nonzero divisor it returns the x100
scaled dividend divided by the divisor, so 10.00 / 4.00 = 2.50. -/
theorem claim_C6_bcd_div :
    ∀ a b : Nat,
      (bcd_div a b = Except.error () ↔ b = 0)
      ∧ (b ≠ 0 → bcd_div a b = Except.ok (a % 1000000 * 100 / b))
      ∧ bcd_div 1000 400 = Except.ok 250 := by
  intro a b
  refine ⟨?_, ?_, ?_⟩
  · unfold bcd_div
    by_cases h : b = 0
    · simp [h]
    · simp [h]
  · intro h
    unfold bcd_div
    rw [if_neg h]
    have hb : 0 < b := Nat.pos_of_ne_zero h
    have hlt : a % 1000000 * 100 < bcdMod := by
      have := Nat.mod_lt a (y := 1000000) (by norm_num)
      simp only [bcdMod]; omega
    rw [divLoop_eq _ b _ 0 hb (Nat.lt_succ_self _) (by simp [bcdMod])]
    rw [Nat.zero_add, Nat.mod_eq_of_lt (lt_of_le_of_lt (Nat.div_le_self _ _) hlt)]
  · show bcd_div 1000 400 = Except.ok 250
    unfold bcd_div
    norm_num
    rw [divLoop_eq _ _ _ _ (by norm_num) (by norm_num) (by simp [bcdMod])]
    decide

/-- Witness for C6 at the concrete division 10.00 / 4.00. -/
theorem claim_C6_witness :
    (400 : Nat) ≠ 0 ∧ bcd_div 1000 400 = Except.ok (1000 % 1000000 * 100 / 400) :=
  ⟨by decide, (claim_C6_bcd_div 1000 400).2.1 (by decide)⟩

/-- C7 counterexample: a formula referencing cell A1 whose type byte is
Error (3) does not fail with a parse error — `parse_operand` falls through
to the Number path and returns the record's payload bytes (sign 0x80,
magnitude 777) with the carry clear. -/
theorem claim_C7_counterexample :
    parse_operand storeErrCell [65, 49] = some (128, 777, []) ∧
    parse_operand storeErrCell [65, 49] ≠ none := by
  refine ⟨by decide, by decide⟩

/-- C8 counterexample: @MIN over a rectangle with no Number or Formula
cell returns the seed magnitude 99999999 (i.e. 999999.99), not zero. -/
theorem claim_C8_counterexample :
    func_result (fun _ _ => Cell.empty) 2 0 0 0 0 = (0, 99999999) ∧
    func_result (fun _ _ => Cell.empty) 2 0 0 0 0 ≠ (0, 0) := by
  refine ⟨by decide, by decide⟩

/-- C10: a divide-by-zero during formula evaluation does not fail the
edit: `eval_div` never checks the carry flag `bcd_div` returns, so
committing `=1/0` evaluates to 1.00 (the accumulator keeps the dividend),
stores type byte 2 (Formula, not 3 = Error) and advances `FORMULA_PTR`
from 0 to 10 (4 source bytes + NUL + 5 cached bytes). -/
theorem claim_C10_div_zero_commits :
    eval_expr (fun _ _ => Cell.empty) [49, 47, 48] = some (0, 100) ∧
    parse_formula (fun _ _ => Cell.empty) [61, 49, 47, 48] 0
      = { formulaPtr := 10, cellType := 2 } ∧
    ({ formulaPtr := 10, cellType := 2 } : EditSt) ≠ { formulaPtr := 0, cellType := 3 } := by
  refine ⟨by decide, by decide, by decide⟩

/-- C9: at the generator's immediate relative-branch patch sites, a label
missing from the label table does not fail the build: the displacement
byte written is exactly the one computed as if the target label were at
address 0. -/
theorem claim_C9_patch_silent :
    ∀ (table : List (String × Nat)) (name : String) (pos : Nat),
      get_label table name = none →
      patch_site table name pos = relative_patch_byte (some 0) pos := by
  intro t n p h
  unfold patch_site
  rw [h]
  rfl

/-- Witness for C9 with an empty label table at position 100. -/
theorem claim_C9_witness :
    get_label [] "copy_formula_loop" = none ∧
    patch_site [] "copy_formula_loop" 100 = relative_patch_byte (some 0) 100 :=
  ⟨rfl, claim_C9_patch_silent [] "copy_formula_loop" 100 rfl⟩

/-- The row-digit loop stops immediately on a non-digit head byte. -/
theorem parseRowDigits_stop (rest : List Nat) (acc : Nat)
    (hrest : rest.headD 0 < 48 ∨ 57 < rest.headD 0) :
    parseRowDigits rest acc = (acc, rest) := by
  cases rest with
  | nil => rfl
  | cons c t =>
    simp only [List.headD_cons] at hrest
    simp only [parseRowDigits]
    rw [if_neg (by omega)]

/-- The row-digit loop consumes the rendered digits of a row number up to
99 and yields its value, leaving a non-digit-headed remainder intact. -/
theorem parseRowDigits_render (n : Nat) (rest : List Nat) (h9 : n ≤ 99)
    (hrest : rest.headD 0 < 48 ∨ 57 < rest.headD 0) :
    parseRowDigits (rowDigits n ++ rest) 0 = (n, rest) := by
  by_cases h10 : n < 10
  · simp only [rowDigits, if_pos h10, List.cons_append, List.nil_append]
    simp only [parseRowDigits]
    rw [if_pos (by omega)]
    have e : (0 * 10 + (48 + n - 48)) % 256 = n := by omega
    rw [e, parseRowDigits_stop rest n hrest]
  · simp only [rowDigits, if_neg h10, List.cons_append, List.nil_append]
    simp only [parseRowDigits]
    rw [if_pos (by omega)]
    have e1 : (0 * 10 + (48 + n / 10 - 48)) % 256 = n / 10 := by omega
    rw [e1, if_pos (by omega : 48 ≤ 48 + n % 10 ∧ 48 + n % 10 ≤ 57)]
    have e2 : (n / 10 * 10 + (48 + n % 10 - 48)) % 256 = n := by omega
    rw [e2, parseRowDigits_stop rest n hrest]

/-- The first rendered row digit is an ASCII digit byte. -/
theorem rowDigits_head (n : Nat) (rest : List Nat) (h9 : n ≤ 99) :
    48 ≤ (rowDigits n ++ rest).headD 0 ∧ (rowDigits n ++ rest).headD 0 ≤ 57 := by
  unfold rowDigits
  split_ifs with h <;> simp only [List.cons_append, List.headD_cons] <;> omega

/-- Dispatch of `parse_operand` on a rendered in-grid cell reference:
the result is determined by the referenced cell's content, with every
non-Empty non-Formula type read as sign + magnitude. -/
theorem parse_operand_ref (store : Store) (col row : Nat) (rest : List Nat)
    (hcol : col < 16) (hrow : row < 64)
    (hrest : rest.headD 0 < 48 ∨ 57 < rest.headD 0) :
    parse_operand store (refChars col row ++ rest) =
      match store col row with
      | Cell.empty => some (0, 0, rest)
      | Cell.formula cs cm => some (cs, cm, rest)
      | Cell.typed _ sg m => some (sg, m, rest) := by
  have hd := rowDigits_head (row + 1) rest (by omega)
  unfold parse_operand refChars
  simp only [List.cons_append, List.headD_cons, List.tail_cons]
  rw [if_neg (by omega : ¬(65 + col = 64)), if_neg (by omega : ¬(65 + col = 36))]
  simp only [List.headD_cons, List.tail_cons, toUpper]
  rw [if_neg (by omega : ¬(97 ≤ 65 + col ∧ 65 + col ≤ 122))]
  rw [if_pos (⟨by omega, by omega⟩ : 65 ≤ 65 + col ∧ 65 + col ≤ 80)]
  rw [if_neg (by omega : ¬((rowDigits (row + 1) ++ rest).headD 0 = 36))]
  rw [parseRowDigits_render (row + 1) rest (by omega) hrest]
  rw [show ((row + 1, rest) : Nat × List Nat).1 = row + 1 from rfl,
    show ((row + 1, rest) : Nat × List Nat).2 = rest from rfl]
  rw [show 65 + col - 65 = col from by omega,
    show (row + 1 + 255) % 256 = row from by omega]

/-- C7 amended: `parse_operand` dereferences a referenced in-grid cell by
type byte: Empty yields zero with positive sign; a Formula cell yields
its cached sign and magnitude; and every other type — Number, but equally
Error, RepeatFill and Label — is read as a Number cell, returning the
record's stored sign and 4-byte magnitude; no cell type causes a parse
error. -/
theorem claim_C7_deref :
    ∀ (store : Store) (col row : Nat) (rest : List Nat),
      col < 16 → row < 64 →
      (rest.headD 0 < 48 ∨ 57 < rest.headD 0) →
      (store col row = Cell.empty →
        parse_operand store (refChars col row ++ rest) = some (0, 0, rest))
      ∧ (∀ sg m, store col row = Cell.typed 1 sg m →
        parse_operand store (refChars col row ++ rest) = some (sg, m, rest))
      ∧ (∀ cs cm, store col row = Cell.formula cs cm →
        parse_operand store (refChars col row ++ rest) = some (cs, cm, rest))
      ∧ (∀ t sg m, store col row = Cell.typed t sg m →
        parse_operand store (refChars col row ++ rest) = some (sg, m, rest)) := by
  intro store col row rest hcol hrow hrest
  have main := parse_operand_ref store col row rest hcol hrow hrest
  refine ⟨fun h => ?_, fun sg m h => ?_, fun cs cm h => ?_, fun t sg m h => ?_⟩ <;>
    rw [main, h]

/-- Witness for C7 at cell B3 of `storeB3` (a Number cell with sign byte
7 and magnitude 4200). -/
theorem claim_C7_witness :
    parse_operand storeB3 (refChars 1 2 ++ []) = some (7, 4200, []) :=
  (claim_C7_deref storeB3 1 2 [] (by decide) (by decide) (by decide)).2.1 7 4200 (by decide)

/-- Range cells that are neither Number nor Formula leave the running
range-function state untouched. -/
theorem visitCell_skip (ftype : Nat) (st : FuncSt) (c : Cell)
    (h : isNumericCell c = false) : visitCell ftype st c = st := by
  cases c with
  | empty => rfl
  | typed t s m =>
    simp only [isNumericCell, beq_eq_false_iff_ne] at h
    simp only [visitCell]
    rw [if_neg h]
  | formula cs cm => simp [isNumericCell] at h

/-- The row loop leaves the state untouched when every row it visits in
the current column is a skipped cell. -/
theorem rowIter_skip (store : Store) (ftype col row2 : Nat) :
    ∀ fuel row st, row ≤ row2 → row2 < 255 → row2 - row < fuel →
      (∀ r, row ≤ r → r ≤ row2 → isNumericCell (store col r) = false) →
      rowIter store ftype col row2 fuel row st = st := by
  intro fuel
  induction fuel with
  | zero => intro row st h1 h2 h3 hskip; exact absurd h3 (by omega)
  | succ n ih =>
    intro row st h1 h2 h3 hskip
    simp only [rowIter]
    rw [visitCell_skip ftype st _ (hskip row le_rfl h1)]
    have hrow : (row + 1) % 256 = row + 1 := Nat.mod_eq_of_lt (by omega)
    rw [hrow]
    by_cases hc : row2 < row + 1
    · rw [if_pos hc]
    · rw [if_neg hc]
      exact ih (row + 1) st (by omega) h2 (by omega)
        (fun r hr1 hr2 => hskip r (by omega) hr2)

/-- The column loop leaves the state untouched when every cell of the
rectangle is skipped. -/
theorem colIter_skip (store : Store) (ftype row1 row2 col2 : Nat) :
    ∀ fuel col st, col ≤ col2 → col2 < 255 → col2 - col < fuel →
      row1 ≤ row2 → row2 < 255 →
      (∀ c r, col ≤ c → c ≤ col2 → row1 ≤ r → r ≤ row2 →
        isNumericCell (store c r) = false) →
      colIter store ftype row1 row2 col2 fuel col st = st := by
  intro fuel
  induction fuel with
  | zero => intro col st h1 h2 h3 hr1 hr2 hskip; exact absurd h3 (by omega)
  | succ n ih =>
    intro col st h1 h2 h3 hr1 hr2 hskip
    simp only [colIter]
    rw [rowIter_skip store ftype col row2 256 row1 st hr1 hr2 (by omega)
      (fun r hra hrb => hskip col r le_rfl h1 hra hrb)]
    have hcol : (col + 1) % 256 = col + 1 := Nat.mod_eq_of_lt (by omega)
    rw [hcol]
    by_cases hc : col2 < col + 1
    · rw [if_pos hc]
    · rw [if_neg hc]
      exact ih (col + 1) st (by omega) h2 (by omega) hr1 hr2
        (fun c r hc1 hc2 hra hrb => hskip c r (by omega) hc2 hra hrb)

/-- C8 amended: over a rectangle containing no Number or Formula cell,
@AVG returns zero with positive sign (its internal division by the zero
count is defined and short-circuits, unlike the bare `/` operator), @MAX
returns its seed zero with positive sign, but @MIN returns its seed — the
theoretical maximum magnitude 99999999 — with positive sign, not zero. -/
theorem claim_C8_empty_range :
    ∀ (store : Store) (c1 r1 c2 r2 : Nat),
      c1 ≤ c2 → c2 < 255 → r1 ≤ r2 → r2 < 255 →
      (∀ c r, c1 ≤ c → c ≤ c2 → r1 ≤ r → r ≤ r2 →
        isNumericCell (store c r) = false) →
      func_result store 1 c1 r1 c2 r2 = (0, 0)
      ∧ func_result store 2 c1 r1 c2 r2 = (0, 99999999)
      ∧ func_result store 3 c1 r1 c2 r2 = (0, 0) := by
  intro store c1 r1 c2 r2 hc hc2 hr hr2 hskip
  have base : ∀ ftype, func_eval store ftype c1 r1 c2 r2 = initFuncSt ftype := by
    intro ftype
    unfold func_eval
    exact colIter_skip store ftype r1 r2 c2 256 c1 _ hc hc2 (by omega) hr hr2 hskip
  unfold func_result
  rw [base 1, base 2, base 3]
  refine ⟨by norm_num [initFuncSt], by norm_num [initFuncSt], by norm_num [initFuncSt]⟩

/-- Witness for C8 over the single-cell rectangle A1:A1 of the empty
store. -/
theorem claim_C8_witness :
    func_result (fun _ _ => Cell.empty) 1 0 0 0 0 = (0, 0)
    ∧ func_result (fun _ _ => Cell.empty) 2 0 0 0 0 = (0, 99999999)
    ∧ func_result (fun _ _ => Cell.empty) 3 0 0 0 0 = (0, 0) :=
  claim_C8_empty_range (fun _ _ => Cell.empty) 0 0 0 0 (Nat.le_refl 0) (by decide)
    (Nat.le_refl 0) (by decide) (fun _ _ _ _ _ _ => rfl)

/-- A digit fold never decreases its accumulator. -/
theorem digitFold_le (ds : List Nat) (a : Nat) :
    a ≤ ds.foldl (fun x d => x * 10 + d) a := by
  induction ds generalizing a with
  | nil => exact Nat.le_refl a
  | cons d t ih =>
    simp only [List.foldl_cons]
    exact Nat.le_trans (by omega) (ih (a * 10 + d))

/-- When the final pure digit fold fits in 8 digits, the fold with the
per-step 8-digit truncation computes the same value (no intermediate
value can exceed the final one). -/
theorem digitFold_mod (ds : List Nat) (a : Nat)
    (h : ds.foldl (fun x d => x * 10 + d) a < bcdMod) :
    ds.foldl (fun x d => (x * 10 + d) % bcdMod) a = ds.foldl (fun x d => x * 10 + d) a := by
  induction ds generalizing a with
  | nil => rfl
  | cons d t ih =>
    simp only [List.foldl_cons] at h ⊢
    rw [Nat.mod_eq_of_lt (Nat.lt_of_le_of_lt (digitFold_le t (a * 10 + d)) h)]
    exact ih _ h

/-- Closed form of the pure digit fold in terms of `digitsVal`. -/
theorem digitFold_closed (ds : List Nat) (a : Nat) :
    ds.foldl (fun x d => x * 10 + d) a = a * 10 ^ ds.length + digitsVal ds := by
  induction ds generalizing a with
  | nil => simp [digitsVal]
  | cons d t ih =>
    simp only [List.foldl_cons, List.length_cons, digitsVal] at ih ⊢
    rw [ih (a * 10 + d), ih (0 * 10 + d)]
    ring

/-- One digit character advances `atob_loop`: the accumulator shifts left
one digit and takes the new digit, and the fractional count increments
exactly when the decimal point has been seen. -/
theorem atobLoop_digit_step (c : List Nat) (W fc : Nat) (dec : Bool) (d : Nat)
    (hd : d < 10) (hfc : fc < 2) :
    atobLoop ((48 + d) :: c) W dec fc
      = atobLoop c ((W * 10 + d) % bcdMod) dec (if dec then fc + 1 else fc) := by
  simp only [atobLoop]
  rw [if_neg (by omega : ¬(48 + d = 0)), if_neg (by omega : ¬(48 + d = 46)),
    if_neg (by omega : ¬(48 + d < 48 ∨ 57 < 48 + d)), if_neg (by omega : ¬(2 ≤ fc)),
    show 48 + d - 48 = d from by omega]

/-- A dot character marks the decimal point and continues the loop. -/
theorem atobLoop_dot_step (c : List Nat) (W fc : Nat) (dec : Bool) :
    atobLoop (46 :: c) W dec fc = atobLoop c W true fc := rfl

/-- Consuming a block of rendered digits before any decimal point folds
them into the accumulator one digit at a time. -/
theorem atobLoop_digits (ds : List Nat) (rest : List Nat) (acc : Nat)
    (h : ∀ d ∈ ds, d < 10) :
    atobLoop (ds.map (fun d => 48 + d) ++ rest) acc false 0
      = atobLoop rest (ds.foldl (fun a d => (a * 10 + d) % bcdMod) acc) false 0 := by
  induction ds generalizing acc with
  | nil => simp only [List.map_nil, List.nil_append, List.foldl_nil]
  | cons d t ih =>
    simp only [List.map_cons, List.cons_append, List.foldl_cons]
    rw [atobLoop_digit_step _ acc 0 false d (h d (List.mem_cons_self d t)) (by omega)]
    exact ih _ (fun x hx => h x (List.mem_cons_of_mem d hx))

/-- The 9-character output of `bcd_to_ascii` denotes exactly the input
magnitude (its digits with the dot ignored read back as the magnitude). -/
theorem btoa_val (m : Nat) (hm : m < bcdMod) :
    str2val (bcd_to_ascii m) = m ∧ (bcd_to_ascii m).length = 9 := by
  refine ⟨?_, rfl⟩
  unfold str2val bcd_to_ascii
  simp only [List.foldl_cons, List.foldl_nil, if_true]
  have h46 : ∀ k : Nat, ¬(48 + k = 46) := by omega
  rw [if_neg (h46 _), if_neg (h46 _), if_neg (h46 _), if_neg (h46 _), if_neg (h46 _),
    if_neg (h46 _), if_neg (h46 _), if_neg (h46 _)]
  simp only [Nat.add_sub_cancel_left]
  simp only [bcdMod] at hm
  omega

/-- A leading minus is skipped by `ascii_to_bcd` and does not change the
parsed magnitude. -/
theorem atob_minus (body : List Nat) (h : body.headD 0 ≠ 45) :
    ascii_to_bcd (45 :: body) = ascii_to_bcd body := by
  unfold ascii_to_bcd
  simp only [List.headD_cons, List.tail_cons, if_true]
  rw [if_neg h]

/-- Value of `ascii_to_bcd` on a rendered unsigned numeral body: the
whole part is shifted into the 2-implied-decimals representation, scaled
by x100, x10 or x1 according to how many fractional digits were typed. -/
theorem atob_body (ws fs : List Nat) (dot : Bool)
    (hws : ∀ d ∈ ws, d < 10) (hfs : ∀ d ∈ fs, d < 10) (hlen : fs.length ≤ 2)
    (hdot : dot = false → fs = []) (hbound : digitsVal ws < 1000000)
    (hh : (ws.map (fun d => 48 + d) ++
      ((if dot then [46] else []) ++ fs.map (fun d => 48 + d))).headD 0 ≠ 45) :
    ascii_to_bcd (ws.map (fun d => 48 + d) ++
        ((if dot then [46] else []) ++ fs.map (fun d => 48 + d)))
      = digitsVal ws * 100 + digitsVal fs * 10 ^ (2 - fs.length) := by
  have hW : ws.foldl (fun a d => (a * 10 + d) % bcdMod) 0 = digitsVal ws := by
    have h1 : ws.foldl (fun x d => x * 10 + d) 0 = digitsVal ws := rfl
    rw [digitFold_mod ws 0 (by rw [h1]; simp only [bcdMod]; omega), h1]
  simp only [ascii_to_bcd]
  rw [if_neg hh, atobLoop_digits ws _ 0 hws, hW]
  rcases fs with _ | ⟨f1, _ | ⟨f2, _ | ⟨f3, fs3⟩⟩⟩
  · cases dot with
    | false =>
      rw [show (if (false : Bool) then [46] else ([] : List Nat)) = [] from rfl]
      simp only [List.map_nil, List.nil_append]
      show digitsVal ws * 10 ^ 2 % bcdMod = digitsVal ws * 100 + 0 * 10 ^ 2
      simp only [bcdMod]
      norm_num
      omega
    | true =>
      rw [show (if (true : Bool) then [46] else ([] : List Nat)) = [46] from rfl]
      simp only [List.map_nil, List.append_nil]
      show digitsVal ws * 10 ^ 2 % bcdMod = digitsVal ws * 100 + 0 * 10 ^ 2
      simp only [bcdMod]
      norm_num
      omega
  · cases dot with
    | false => exact absurd (hdot rfl) (by simp)
    | true =>
      have hf1 : f1 < 10 := hfs f1 (by simp)
      rw [show (if (true : Bool) then [46] else ([] : List Nat)) = [46] from rfl]
      simp only [List.map_cons, List.map_nil, List.singleton_append, atobLoop_dot_step,
        atobLoop_digit_step [] (digitsVal ws) 0 true f1 hf1 (by omega)]
      show (digitsVal ws * 10 + f1) % bcdMod * 10 ^ 1 % bcdMod
        = digitsVal ws * 100 + (0 * 10 + f1) * 10 ^ 1
      simp only [bcdMod]
      norm_num
      omega
  · cases dot with
    | false => exact absurd (hdot rfl) (by simp)
    | true =>
      have hf1 : f1 < 10 := hfs f1 (by simp)
      have hf2 : f2 < 10 := hfs f2 (by simp)
      rw [show (if (true : Bool) then [46] else ([] : List Nat)) = [46] from rfl]
      simp only [List.map_cons, List.map_nil, List.singleton_append, atobLoop_dot_step,
        if_true, atobLoop_digit_step [48 + f2] (digitsVal ws) 0 true f1 hf1 (by omega),
        atobLoop_digit_step [] ((digitsVal ws * 10 + f1) % bcdMod) 1 true f2 hf2 (by omega)]
      show ((digitsVal ws * 10 + f1) % bcdMod * 10 + f2) % bcdMod * 10 ^ 0 % bcdMod
        = digitsVal ws * 100 + ((0 * 10 + f1) * 10 + f2) * 10 ^ 0
      simp only [bcdMod]
      norm_num
      omega
  · exact absurd hlen (by simp)

/-- C4 counterexample: the input `1234567` has 7 significant decimal
digits and no fractional digit, yet it does not round-trip: the x100
scaling shifts its leading digit out of the 8-digit window, the stored
magnitude is 23456700 and the output denotes 234567.00, not 1234567.00
(whose scaled value would be 123456700). -/
theorem claim_C4_counterexample :
    ascii_to_bcd [49, 50, 51, 52, 53, 54, 55] = 23456700 ∧
    str2val (bcd_to_ascii (ascii_to_bcd [49, 50, 51, 52, 53, 54, 55])) = 23456700 ∧
    (23456700 : Nat) ≠ 123456700 := by
  refine ⟨by decide, by decide, by decide⟩

/-- C4 amended: for every ASCII numeral (optional minus, whole digits,
optional dot, at most 2 fractional digits) whose whole part is below
10^6 — equivalently, at most 8 significant decimal digits after scaling
to the 2 implied fractional digits — `ascii_to_bcd` stores the value
scaled to exactly 2 implied decimals (x100 with no or zero fractional
digits, x10 with one), and `bcd_to_ascii` renders that magnitude as a
9-character string denoting the same numeric value to 2 decimal
places. -/
theorem claim_C4_roundtrip :
    ∀ (neg dot : Bool) (ws fs : List Nat),
      (∀ d ∈ ws, d < 10) → (∀ d ∈ fs, d < 10) → fs.length ≤ 2 →
      (dot = false → fs = []) → digitsVal ws < 1000000 →
      ascii_to_bcd (renderNum neg ws dot fs)
          = digitsVal ws * 100 + digitsVal fs * 10 ^ (2 - fs.length)
      ∧ (bcd_to_ascii (digitsVal ws * 100 + digitsVal fs * 10 ^ (2 - fs.length))).length = 9
      ∧ str2val (bcd_to_ascii (digitsVal ws * 100 + digitsVal fs * 10 ^ (2 - fs.length)))
          = digitsVal ws * 100 + digitsVal fs * 10 ^ (2 - fs.length) := by
  intro neg dot ws fs hws hfs hlen hdot hbound
  have hh : (ws.map (fun d => 48 + d) ++
      ((if dot then [46] else []) ++ fs.map (fun d => 48 + d))).headD 0 ≠ 45 := by
    cases ws with
    | cons w t =>
      simp only [List.map_cons, List.cons_append, List.headD_cons]
      omega
    | nil =>
      simp only [List.map_nil, List.nil_append]
      cases dot with
      | true =>
        rw [show (if (true : Bool) then [46] else ([] : List Nat)) = [46] from rfl]
        simp only [List.cons_append, List.headD_cons]
        omega
      | false =>
        rw [hdot rfl, show (if (false : Bool) then [46] else ([] : List Nat)) = [] from rfl]
        simp only [List.map_nil, List.nil_append, List.headD_nil]
        omega
  have hrender : renderNum neg ws dot fs = (if neg then [45] else []) ++
      (ws.map (fun d => 48 + d) ++
        ((if dot then [46] else []) ++ fs.map (fun d => 48 + d))) := by
    unfold renderNum
    rw [List.append_assoc, List.append_assoc]
  have hcore : ascii_to_bcd (renderNum neg ws dot fs)
      = digitsVal ws * 100 + digitsVal fs * 10 ^ (2 - fs.length) := by
    rw [hrender]
    cases neg with
    | false =>
      rw [show (if (false : Bool) then [45] else ([] : List Nat)) = [] from rfl,
        List.nil_append]
      exact atob_body ws fs dot hws hfs hlen hdot hbound hh
    | true =>
      rw [show (if (true : Bool) then [45] else ([] : List Nat)) = [45] from rfl,
        List.singleton_append, atob_minus _ hh]
      exact atob_body ws fs dot hws hfs hlen hdot hbound hh
  have hfs99 : digitsVal fs * 10 ^ (2 - fs.length) ≤ 99 := by
    rcases fs with _ | ⟨f1, _ | ⟨f2, _ | ⟨f3, t⟩⟩⟩
    · simp [digitsVal]
    · have h1 := hfs f1 (by simp)
      simp only [digitsVal, List.foldl_cons, List.foldl_nil, List.length_cons,
        List.length_nil, pow_one]
      omega
    · have h1 := hfs f1 (by simp)
      have h2 := hfs f2 (by simp)
      simp only [digitsVal, List.foldl_cons, List.foldl_nil, List.length_cons,
        List.length_nil, pow_zero]
      omega
    · exact absurd hlen (by simp)
  have hmag : digitsVal ws * 100 + digitsVal fs * 10 ^ (2 - fs.length) < bcdMod := by
    simp only [bcdMod]
    omega
  exact ⟨hcore, (btoa_val _ hmag).2, (btoa_val _ hmag).1⟩

/-- Witness for C4 at the spec's example `123.45` (whole digits 1,2,3 and
fractional digits 4,5): the stored magnitude is 12345. -/
theorem claim_C4_witness :
    ascii_to_bcd (renderNum false [1, 2, 3] true [4, 5])
        = digitsVal [1, 2, 3] * 100 + digitsVal [4, 5] * 10 ^ (2 - [4, 5].length)
    ∧ str2val (bcd_to_ascii (digitsVal [1, 2, 3] * 100 +
        digitsVal [4, 5] * 10 ^ (2 - [4, 5].length)))
        = digitsVal [1, 2, 3] * 100 + digitsVal [4, 5] * 10 ^ (2 - [4, 5].length) :=
  ⟨(claim_C4_roundtrip false true [1, 2, 3] [4, 5] (by decide) (by decide) (by decide)
      (by decide) (by decide)).1,
   (claim_C4_roundtrip false true [1, 2, 3] [4, 5] (by decide) (by decide) (by decide)
      (by decide) (by decide)).2.2⟩

end KzCalc
